import Mathlib

/-!
Shallow embedding of ckb-typed-message/src/lib.rs.

Modelling conventions:
* Byte buffers are lists of naturals (each entry is one u8; where a numeric
  interpretation is taken, values are reduced mod 256 as the u8 type forces).
* The host environment (syscalls of ckb-std) is a structure Env:
  - txHash is the result of load_tx_hash;
  - witnesses models Source::Input: load_witness(i, Input) returns the i-th
    entry when present and Err(IndexOutOfBound) past the end; an entry may
    itself be a host error, covering faulty hosts;
  - groupWitnesses models Source::GroupInput in the same way;
  - decode models ExtendedWitnessReader::from_slice followed by to_enum
    (the molecule codec, an external collaborator): none is a
    VerificationError, some u is a successful decode of the tagged union;
  - hashF models the blake2b-256 finalization: the incremental hasher is
    embedded as the list of bytes fed so far (Blake2b below) and finalize
    applies hashF to that stream;
  - txReadResult is the outcome of the syscall
    load_transaction(&mut [0u8; 8], 28), and txWindow the 8 bytes the host
    placed in that buffer, i.e. bytes [28, 36) of the serialized
    transaction envelope (the buffer is zero-initialized, hence the
    default 0 when the window is short).
* A Rust panic (unreachable!, or the panic of QueryIter on an unexpected
  host error) is modelled as Option.none in the result type; Option.some
  carries the Rust Result value.
-/

namespace CkbTypedMessage

/-- Byte strings: one natural per u8. -/
abbrev Bytes := List Nat

/-- SysError of ckb-std (the host error type of the syscall layer). -/
inductive SysError where
  | IndexOutOfBound
  | ItemMissing
  | LengthNotEnough (actual : Nat)
  | Encoding
  | Unknown (code : Nat)
deriving DecidableEq, Repr

/-- Error enum of lib.rs: Sys(SysError), MoleculeEncoding,
WrongSighashWithAction, WrongWitnessLayout. -/
inductive Error where
  | Sys (e : SysError)
  | MoleculeEncoding
  | WrongSighashWithAction
  | WrongWitnessLayout
deriving DecidableEq, Repr

/-- Decoded ExtendedWitness tagged union. Sighash carries a lock;
SighashWithAction carries a lock and a message; OtherVariant stands for
every remaining variant of the union (e.g. Otx, OtxStart). -/
inductive ExtendedWitnessUnion where
  | Sighash (lock : Bytes)
  | SighashWithAction (lock : Bytes) (message : Bytes)
  | OtherVariant (tag : Nat) (data : Bytes)
deriving DecidableEq, Repr

/-- Payload of a decoded SighashWithAction entity (fields lock and message). -/
structure SighashWithActionData where
  lock : Bytes
  message : Bytes
deriving DecidableEq, Repr

/-- Incremental blake2b state: the stream of bytes fed so far. -/
structure Blake2b where
  acc : Bytes
deriving DecidableEq, Repr

/-- new_blake2b() of the blake2b module: fresh hasher, empty stream. -/
def new_blake2b : Blake2b := ⟨[]⟩

/-- hasher.update(data): append data to the fed stream. -/
def Blake2b.update (h : Blake2b) (data : Bytes) : Blake2b := ⟨h.acc ++ data⟩

/-- hasher.finalize(&mut output): apply the abstract blake2b-256 compression
hashF to the fed stream. -/
def Blake2b.finalize (h : Blake2b) (hashF : Bytes → Bytes) : Bytes := hashF h.acc

/-- Host environment of one program run (see the module comment). -/
structure Env where
  txHash : Bytes
  witnesses : List (Except SysError Bytes)
  groupWitnesses : List (Except SysError Bytes)
  decode : Bytes → Option ExtendedWitnessUnion
  hashF : Bytes → Bytes
  txReadResult : Except SysError Nat
  txWindow : Bytes

/-- load_witness(i, source) over a witness store: the i-th entry when
present, Err(IndexOutOfBound) past the end of the store. -/
def load_witness (ws : List (Except SysError Bytes)) (i : Nat) :
    Except SysError Bytes :=
  (ws[i]?).getD (.error .IndexOutOfBound)

/-- fetch_sighash(): load witness 0 of Source::GroupInput, decode it, accept
exactly the Sighash and SighashWithAction variants, answer MoleculeEncoding
for a decode failure or any other variant, and convert a host error via
From(SysError). -/
def fetch_sighash (env : Env) : Except Error ExtendedWitnessUnion :=
  match load_witness env.groupWitnesses 0 with
  | .ok witness =>
    match env.decode witness with
    | some u =>
      match u with
      | .SighashWithAction _ _ => .ok u
      | .Sighash _ => .ok u
      | _ => .error .MoleculeEncoding
    | none => .error .MoleculeEncoding
  | .error e => .error (.Sys e)

/-- Loop body of fetch_sighash_with_action over QueryIter(load_witness,
Source::Input): r is the mutable Option result; a witness that decodes as
SighashWithAction is stored, a second one aborts with
WrongSighashWithAction; decode failures and other variants are skipped; an
IndexOutOfBound entry ends the iteration; any other host error entry makes
QueryIter panic (none). -/
def fswaLoop (d : Bytes → Option ExtendedWitnessUnion) :
    List (Except SysError Bytes) → Option SighashWithActionData →
    Option (Except Error SighashWithActionData)
  | [], some s => some (.ok s)
  | [], none => some (.error .WrongSighashWithAction)
  | .ok w :: rest, r =>
    match d w with
    | some (.SighashWithAction l m) =>
      match r with
      | some _ => some (.error .WrongSighashWithAction)
      | none => fswaLoop d rest (some ⟨l, m⟩)
    | _ => fswaLoop d rest r
  | .error .IndexOutOfBound :: _, some s => some (.ok s)
  | .error .IndexOutOfBound :: _, none => some (.error .WrongSighashWithAction)
  | .error _ :: _, _ => none

/-- fetch_sighash_with_action(): scan all witnesses of Source::Input in
ascending index order for the unique SighashWithAction. -/
def fetch_sighash_with_action (env : Env) :
    Option (Except Error SighashWithActionData) :=
  fswaLoop env.decode env.witnesses none

/-- Loop body of check_others_in_group over the group witnesses after the
first: a non-empty witness aborts with WrongWitnessLayout; an
IndexOutOfBound entry ends the iteration; any other host error entry makes
QueryIter panic (none). -/
def cogLoop : List (Except SysError Bytes) → Option (Except Error Unit)
  | [] => some (.ok ())
  | .ok w :: rest =>
    if w.length = 0 then cogLoop rest else some (.error .WrongWitnessLayout)
  | .error .IndexOutOfBound :: _ => some (.ok ())
  | .error _ :: _ => none

/-- check_others_in_group(): QueryIter(load_witness, Source::GroupInput)
.skip(1); the skip adapter still pulls the first element once, so a host
fault there also panics, while an IndexOutOfBound first element simply
yields an empty iteration. -/
def check_others_in_group (env : Env) : Option (Except Error Unit) :=
  match env.groupWitnesses with
  | [] => some (.ok ())
  | .ok _ :: rest => cogLoop rest
  | .error .IndexOutOfBound :: _ => some (.ok ())
  | .error _ :: _ => none

/-- NUMBER_SIZE of the molecule crate: a molecule number is 4 bytes. -/
def NUMBER_SIZE : Nat := 4

/-- CellInput::TOTAL_SIZE of ckb_types: since (8 bytes) plus OutPoint
(32-byte tx hash plus 4-byte index) = 44 bytes per input record. -/
def CELL_INPUT_TOTAL_SIZE : Nat := 44

/-- Modulus of the usize arithmetic of the target (64-bit RISC-V). -/
def USIZE_MOD : Nat := 2 ^ 64

/-- Wrapping usize subtraction a - b mod 2^64. -/
def usizeSub (a b : Nat) : Nat :=
  (a % USIZE_MOD + (USIZE_MOD - b % USIZE_MOD)) % USIZE_MOD

/-- u32::from_le_bytes on 4 bytes of a buffer starting at off (missing
bytes read as the 0 the buffer was initialized with; entries are reduced
mod 256 as the u8 type forces). -/
def readU32 (bs : Bytes) (off : Nat) : Nat :=
  bs.getD off 0 % 256 + 256 * (bs.getD (off + 1) 0 % 256) +
    65536 * (bs.getD (off + 2) 0 % 256) +
    16777216 * (bs.getD (off + 3) 0 % 256)

/-- calculate_inputs_len(): read the 8-byte window at envelope offset 28;
a LengthNotEnough outcome is the expected success path, after which the
window holds inputs-offset at [0,4) and outputs-offset at [4,8) (little
endian) and the input count is
(outputs_offset - inputs_offset - NUMBER_SIZE) / CellInput::TOTAL_SIZE in
usize arithmetic; an Unknown host error is returned; every other outcome
hits the unreachable! arm, i.e. panics (none). -/
def calculate_inputs_len (env : Env) : Option (Except SysError Nat) :=
  match env.txReadResult with
  | .error (.LengthNotEnough _) =>
    some (.ok (usizeSub (usizeSub (readU32 env.txWindow 4)
      (readU32 env.txWindow 0)) NUMBER_SIZE / CELL_INPUT_TOTAL_SIZE))
  | .error (.Unknown e) => some (.error (.Unknown e))
  | _ => none

/-- (n as u64).to_le_bytes(): 8-byte little-endian encoding. -/
def u64le (n : Nat) : Bytes :=
  [n % 256, n / 2 ^ 8 % 256, n / 2 ^ 16 % 256, n / 2 ^ 24 % 256,
   n / 2 ^ 32 % 256, n / 2 ^ 40 % 256, n / 2 ^ 48 % 256, n / 2 ^ 56 % 256]

/-- Loop of generate_skeleton_hash from index i upward: feed each loaded
witness as length prefix (8-byte little endian) plus raw bytes; break on
IndexOutOfBound (also at the end of the store, where load_witness answers
IndexOutOfBound); return any other host error. -/
def skeletonLoop (h : Blake2b) :
    List (Except SysError Bytes) → Except SysError Blake2b
  | [] => .ok h
  | .ok w :: rest => skeletonLoop ((h.update (u64le w.length)).update w) rest
  | .error .IndexOutOfBound :: _ => .ok h
  | .error e :: _ => .error e

/-- generate_skeleton_hash(): hash the 32-byte transaction hash, then every
witness at global index at or above calculate_inputs_len() as a length
prefix plus raw bytes, and finalize. -/
def generate_skeleton_hash (env : Env) : Option (Except Error Bytes) :=
  let h0 := new_blake2b.update env.txHash
  match calculate_inputs_len env with
  | none => none
  | some (.error e) => some (.error (.Sys e))
  | some (.ok n) =>
    match skeletonLoop h0 (env.witnesses.drop n) with
    | .error e => some (.error (.Sys e))
    | .ok h => some (.ok (h.finalize env.hashF))

/-- generate_final_hash(skeleton_hash, typed_message): hash the 32-byte
skeleton with no length prefix, then the message with its 8-byte
little-endian length prefix, and finalize. -/
def generate_final_hash (hashF : Bytes → Bytes)
    (skeleton_hash typed_message : Bytes) : Bytes :=
  (((new_blake2b.update skeleton_hash).update
    (u64le typed_message.length)).update typed_message).finalize hashF

/-- Variant dispatch of parse_typed_message: a SighashWithAction primary
witness supplies its own lock and message; a Sighash primary witness
supplies its own lock and borrows the message of the transaction-wide
SighashWithAction; the fallback arm answers WrongSighashWithAction. -/
def dispatch_lock_message (sighash_with_action : SighashWithActionData) :
    ExtendedWitnessUnion → Except Error (Bytes × Bytes)
  | .SighashWithAction l m => .ok (l, m)
  | .Sighash l => .ok (l, sighash_with_action.message)
  | _ => .error .WrongSighashWithAction

/-- parse_typed_message(): check_others_in_group, then
fetch_sighash_with_action, then fetch_sighash, then the variant dispatch,
then generate_skeleton_hash and generate_final_hash; answers the digest
and the raw lock bytes. -/
def parse_typed_message (env : Env) : Option (Except Error (Bytes × Bytes)) :=
  match check_others_in_group env with
  | none => none
  | some (.error e) => some (.error e)
  | some (.ok _) =>
    match fetch_sighash_with_action env with
    | none => none
    | some (.error e) => some (.error e)
    | some (.ok sighash_with_action) =>
      match fetch_sighash env with
      | .error e => some (.error e)
      | .ok witness =>
        match dispatch_lock_message sighash_with_action witness with
        | .error e => some (.error e)
        | .ok (lock, typed_message) =>
          match generate_skeleton_hash env with
          | none => none
          | some (.error e) => some (.error e)
          | some (.ok skeleton_hash) =>
            some (.ok (generate_final_hash env.hashF skeleton_hash
              typed_message, lock))

/-- A witness store with no embedded host faults. -/
def pureWs (ws : List Bytes) : List (Except SysError Bytes) := ws.map .ok

/-- Payloads of the witnesses that decode as SighashWithAction, in scan
order. -/
def swaPayloads (d : Bytes → Option ExtendedWitnessUnion) (ws : List Bytes) :
    List SighashWithActionData :=
  ws.filterMap fun w =>
    match d w with
    | some (.SighashWithAction l m) => some ⟨l, m⟩
    | _ => none

/-- Byte stream the skeleton loop feeds for a list of surplus witnesses:
each witness as 8-byte little-endian length prefix plus raw bytes. -/
def surplusStream : List Bytes → Bytes
  | [] => []
  | w :: rest => u64le w.length ++ w ++ surplusStream rest

/-- Predicate of the accepted primary-witness variants. -/
def isPrimaryVariant : ExtendedWitnessUnion → Bool
  | .Sighash _ => true
  | .SighashWithAction _ _ => true
  | _ => false

/-- Concrete molecule decoder used on concrete runs: tag byte 1 is a
Sighash whose lock is the remaining bytes, tag byte 2 is a
SighashWithAction with a one-byte lock length, tag byte 3 is some other
union variant, everything else fails to decode. -/
def toyDecode : Bytes → Option ExtendedWitnessUnion
  | 1 :: lock => some (.Sighash lock)
  | 2 :: n :: rest => some (.SighashWithAction (rest.take n) (rest.drop n))
  | 3 :: data => some (.OtherVariant 3 data)
  | _ => none

/-- Concrete run: one witness decoding as SighashWithAction with lock [7]
and message [3, 3]; the envelope window encodes inputs-offset 0 and
outputs-offset 48, hence one input. -/
def envA : Env where
  txHash := List.replicate 32 0
  witnesses := pureWs [[2, 1, 7, 3, 3]]
  groupWitnesses := pureWs [[2, 1, 7, 3, 3]]
  decode := toyDecode
  hashF := fun bs => bs
  txReadResult := .error (.LengthNotEnough 100)
  txWindow := [0, 0, 0, 0, 48, 0, 0, 0]

/-- Concrete run with input count 1 and one surplus witness [6]. -/
def envB : Env := { envA with witnesses := pureWs [[1, 9], [6]] }

/-- Concrete run shaped like scenario B of the spec: the primary group
witness decodes as Sighash with lock [9], a later global witness is the
unique SighashWithAction (lock [7], message [3, 3]); the window encodes
outputs-offset 92, hence two inputs and no surplus witness. -/
def envC : Env := { envA with
  witnesses := pureWs [[1, 9], [2, 1, 7, 3, 3]]
  groupWitnesses := pureWs [[1, 9]]
  txWindow := [0, 0, 0, 0, 92, 0, 0, 0] }

/-- Digest parse_typed_message produces on envC. -/
def dC : Bytes := List.replicate 32 0 ++ u64le 2 ++ [3, 3]

/-- Concrete run whose authorization group has a non-empty witness at
group index 1. -/
def envD : Env := { envA with groupWitnesses := pureWs [[], [5]] }

/-- Concrete run whose envelope read answers IndexOutOfBound. -/
def envE : Env := { envA with txReadResult := .error .IndexOutOfBound }

/-- Concrete run whose envelope window violates the precondition
outputs-offset at least inputs-offset + NUMBER_SIZE. -/
def envF : Env := { envA with txWindow := [100, 0, 0, 0, 0, 0, 0, 0] }

/- ------------------------------------------------------------------ -/
/- Helper lemmas. -/
/- ------------------------------------------------------------------ -/

theorem pureWs_cons (w : Bytes) (ws : List Bytes) :
    pureWs (w :: ws) = .ok w :: pureWs ws := rfl

theorem swaPayloads_cons (d : Bytes → Option ExtendedWitnessUnion)
    (w : Bytes) (ws : List Bytes) :
    swaPayloads d (w :: ws) =
      (match d w with
        | some (.SighashWithAction l m) => some (⟨l, m⟩ : SighashWithActionData)
        | _ => none).toList ++ swaPayloads d ws := by
  simp [swaPayloads, List.filterMap_cons]
  rcases d w with _ | u
  · simp
  · cases u <;> simp

theorem fswaLoop_none_payloads (d : Bytes → Option ExtendedWitnessUnion)
    (ws : List Bytes) :
    (swaPayloads d ws = [] →
      fswaLoop d (pureWs ws) none = some (.error .WrongSighashWithAction) ∧
      ∀ s, fswaLoop d (pureWs ws) (some s) = some (.ok s)) ∧
    (∀ p, swaPayloads d ws = [p] →
      fswaLoop d (pureWs ws) none = some (.ok p)) := by
  induction ws with
  | nil =>
    constructor
    · intro _; exact ⟨rfl, fun _ => rfl⟩
    · intro p hp; simp [swaPayloads] at hp
  | cons w rest ih =>
    have hcons := swaPayloads_cons d w rest
    rcases hdw : d w with _ | u
    · rw [hdw] at hcons; simp at hcons
      constructor
      · intro h
        rw [hcons] at h
        have := ih.1 h
        exact ⟨by simpa [pureWs_cons, fswaLoop, hdw] using this.1,
               fun s => by simpa [pureWs_cons, fswaLoop, hdw] using this.2 s⟩
      · intro p hp
        rw [hcons] at hp
        have := ih.2 p hp
        simpa [pureWs_cons, fswaLoop, hdw] using this
    · cases u with
      | SighashWithAction l m =>
        rw [hdw] at hcons; simp at hcons
        constructor
        · intro h; rw [hcons] at h; simp at h
        · intro p hp
          rw [hcons] at hp
          have hrest : swaPayloads d rest = [] := by
            cases hq : swaPayloads d rest with
            | nil => rfl
            | cons q qs => rw [hq] at hp; simp at hp
          have hpl : (⟨l, m⟩ : SighashWithActionData) = p := by
            rw [hrest] at hp; simpa using hp
          have := (ih.1 hrest).2 (⟨l, m⟩ : SighashWithActionData)
          rw [← hpl]
          simpa [pureWs_cons, fswaLoop, hdw] using this
      | Sighash l =>
        rw [hdw] at hcons; simp at hcons
        constructor
        · intro h
          rw [hcons] at h
          have := ih.1 h
          exact ⟨by simpa [pureWs_cons, fswaLoop, hdw] using this.1,
                 fun s => by simpa [pureWs_cons, fswaLoop, hdw] using this.2 s⟩
        · intro p hp
          rw [hcons] at hp
          have := ih.2 p hp
          simpa [pureWs_cons, fswaLoop, hdw] using this
      | OtherVariant t dat =>
        rw [hdw] at hcons; simp at hcons
        constructor
        · intro h
          rw [hcons] at h
          have := ih.1 h
          exact ⟨by simpa [pureWs_cons, fswaLoop, hdw] using this.1,
                 fun s => by simpa [pureWs_cons, fswaLoop, hdw] using this.2 s⟩
        · intro p hp
          rw [hcons] at hp
          have := ih.2 p hp
          simpa [pureWs_cons, fswaLoop, hdw] using this

theorem fswaLoop_early (d : Bytes → Option ExtendedWitnessUnion)
    (pre : List Bytes) :
    ∀ (post : List (Except SysError Bytes)) (r : Option SighashWithActionData),
      2 ≤ (swaPayloads d pre).length +
        (match r with | some _ => 1 | none => 0) →
      fswaLoop d (pureWs pre ++ post) r =
        some (.error .WrongSighashWithAction) := by
  induction pre with
  | nil =>
    intro post r h
    rcases r with _ | s <;> simp [swaPayloads] at h
  | cons w rest ih =>
    intro post r h
    have hcons := swaPayloads_cons d w rest
    rcases hdw : d w with _ | u
    · rw [hdw] at hcons; simp at hcons
      rw [hcons] at h
      simpa [pureWs_cons, fswaLoop, hdw] using ih post r h
    · cases u with
      | SighashWithAction l m =>
        rw [hdw] at hcons; simp at hcons
        rcases r with _ | s
        · rw [hcons] at h; simp at h
          have h2 : 2 ≤ (swaPayloads d rest).length + 1 := by omega
          simpa [pureWs_cons, fswaLoop, hdw] using
            ih post (some (⟨l, m⟩ : SighashWithActionData)) h2
        · simp [pureWs_cons, fswaLoop, hdw]
      | Sighash l =>
        rw [hdw] at hcons; simp at hcons
        rw [hcons] at h
        simpa [pureWs_cons, fswaLoop, hdw] using ih post r h
      | OtherVariant t dat =>
        rw [hdw] at hcons; simp at hcons
        rw [hcons] at h
        simpa [pureWs_cons, fswaLoop, hdw] using ih post r h

theorem cogLoop_mem_err (ws : List Bytes) (w : Bytes)
    (hmem : w ∈ ws) (hne : w.length ≠ 0) :
    cogLoop (pureWs ws) = some (.error .WrongWitnessLayout) := by
  induction ws with
  | nil => cases hmem
  | cons x rest ih =>
    rw [pureWs_cons]
    by_cases hx : x.length = 0
    · have hwr : w ∈ rest := by
        rcases List.mem_cons.mp hmem with h | h
        · exact absurd (h ▸ hx) hne
        · exact h
      simpa [cogLoop, hx] using ih hwr
    · simp [cogLoop, hx]

theorem cogLoop_all_ok (ws : List Bytes)
    (hall : ∀ w ∈ ws, w.length = 0) :
    cogLoop (pureWs ws) = some (.ok ()) := by
  induction ws with
  | nil => rfl
  | cons x rest ih =>
    rw [pureWs_cons]
    have hx : x.length = 0 := hall x (List.mem_cons_self x rest)
    simpa [cogLoop, hx] using ih fun w hw => hall w (List.mem_cons_of_mem x hw)

theorem skeletonLoop_pure (ws : List Bytes) :
    ∀ h : Blake2b,
      skeletonLoop h (pureWs ws) = .ok ⟨h.acc ++ surplusStream ws⟩ := by
  induction ws with
  | nil => intro h; simp [pureWs, skeletonLoop, surplusStream]
  | cons w rest ih =>
    intro h
    rw [pureWs_cons]
    simp only [skeletonLoop]
    rw [ih]
    simp [Blake2b.update, surplusStream, List.append_assoc]

theorem skeletonLoop_err (pre : List Bytes) :
    ∀ (h : Blake2b) (e : SysError) (rest : List (Except SysError Bytes)),
      skeletonLoop h (pureWs pre ++ .error e :: rest) =
        if e = .IndexOutOfBound then .ok ⟨h.acc ++ surplusStream pre⟩
        else .error e := by
  induction pre with
  | nil =>
    intro h e rest
    cases e <;> simp [pureWs, skeletonLoop, surplusStream]
  | cons w prest ih =>
    intro h e rest
    rw [pureWs_cons]
    simp only [List.cons_append, skeletonLoop, List.append_eq]
    rw [ih]
    cases e <;> simp [Blake2b.update, surplusStream, List.append_assoc]

theorem readU32_lt (bs : Bytes) (off : Nat) : readU32 bs off < 2 ^ 32 := by
  have h0 : bs.getD off 0 % 256 < 256 := Nat.mod_lt _ (by norm_num)
  have h1 : bs.getD (off + 1) 0 % 256 < 256 := Nat.mod_lt _ (by norm_num)
  have h2 : bs.getD (off + 2) 0 % 256 < 256 := Nat.mod_lt _ (by norm_num)
  have h3 : bs.getD (off + 3) 0 % 256 < 256 := Nat.mod_lt _ (by norm_num)
  simp only [readU32]
  omega

theorem usizeSub_of_le (a b : Nat) (hb : b ≤ a) (ha : a < USIZE_MOD) :
    usizeSub a b = a - b := by
  have hbm : b < USIZE_MOD := lt_of_le_of_lt hb ha
  simp only [usizeSub]
  rw [Nat.mod_eq_of_lt ha, Nat.mod_eq_of_lt hbm]
  have hrw : a + (USIZE_MOD - b) = USIZE_MOD + (a - b) := by omega
  rw [hrw, Nat.add_mod_left, Nat.mod_eq_of_lt (by omega)]

theorem calculate_inputs_len_formula (env : Env) (k : Nat)
    (hr : env.txReadResult = .error (.LengthNotEnough k))
    (hle : readU32 env.txWindow 0 + NUMBER_SIZE ≤ readU32 env.txWindow 4) :
    calculate_inputs_len env = some (.ok
      ((readU32 env.txWindow 4 - readU32 env.txWindow 0 - NUMBER_SIZE) /
        CELL_INPUT_TOTAL_SIZE)) := by
  have hlt4 : readU32 env.txWindow 4 < USIZE_MOD :=
    lt_trans (readU32_lt _ _) (by norm_num [USIZE_MOD])
  have hs1 : usizeSub (readU32 env.txWindow 4) (readU32 env.txWindow 0) =
      readU32 env.txWindow 4 - readU32 env.txWindow 0 :=
    usizeSub_of_le _ _ (by omega) hlt4
  have hs2 : usizeSub (readU32 env.txWindow 4 - readU32 env.txWindow 0)
      NUMBER_SIZE =
      readU32 env.txWindow 4 - readU32 env.txWindow 0 - NUMBER_SIZE :=
    usizeSub_of_le _ _ (by omega) (by omega)
  simp [calculate_inputs_len, hr, hs1, hs2]

theorem gsh_step (env : Env) (n : Nat)
    (hn : calculate_inputs_len env = some (.ok n)) :
    generate_skeleton_hash env =
      match skeletonLoop (new_blake2b.update env.txHash)
        (env.witnesses.drop n) with
      | .error e => some (.error (.Sys e))
      | .ok h => some (.ok (h.finalize env.hashF)) := by
  unfold generate_skeleton_hash
  rw [hn]

theorem parse_inversion (env : Env) (d lk : Bytes)
    (h : parse_typed_message env = some (.ok (d, lk))) :
    ∃ (swa : SighashWithActionData) (u : ExtendedWitnessUnion)
      (sk lockb msg : Bytes),
      fetch_sighash_with_action env = some (.ok swa) ∧
      fetch_sighash env = .ok u ∧
      dispatch_lock_message swa u = .ok (lockb, msg) ∧
      generate_skeleton_hash env = some (.ok sk) ∧
      d = generate_final_hash env.hashF sk msg ∧ lk = lockb := by
  unfold parse_typed_message at h
  rcases hco : check_others_in_group env with _ | co
  · rw [hco] at h; simp at h
  rcases co with e | u0
  · rw [hco] at h; simp at h
  rw [hco] at h; simp only [] at h
  rcases hswa : fetch_sighash_with_action env with _ | r
  · rw [hswa] at h; simp at h
  rcases r with e | swa
  · rw [hswa] at h; simp at h
  rw [hswa] at h; simp only [] at h
  rcases hfs : fetch_sighash env with e | u
  · rw [hfs] at h; simp at h
  rw [hfs] at h; simp only [] at h
  rcases hdisp : dispatch_lock_message swa u with e | p
  · rw [hdisp] at h; simp at h
  rcases p with ⟨lockb, tm⟩
  rw [hdisp] at h; simp only [] at h
  rcases hsk : generate_skeleton_hash env with _ | q
  · rw [hsk] at h; simp at h
  rcases q with e | sk
  · rw [hsk] at h; simp at h
  rw [hsk] at h; simp only [Option.some.injEq, Except.ok.injEq,
    Prod.mk.injEq] at h
  exact ⟨swa, u, sk, lockb, tm, rfl, rfl, hdisp, rfl, h.1.symm, h.2.symm⟩

/- ------------------------------------------------------------------ -/
/- Claim theorems. -/
/- ------------------------------------------------------------------ -/

/-- C1: fetch_sighash_with_action scans the witnesses of the transaction by
ascending global index, skipping entries that do not decode as
SighashWithAction; with zero decoding witnesses it fails with
WrongSighashWithAction (the MissingActionWitness case of the spec), with
exactly one it returns that payload, and once a second one is found it
fails with WrongSighashWithAction (MultipleActionWitnesses) immediately,
whatever the remaining entries of the store hold. -/
theorem C1_unique_action (env : Env) :
    (∀ ws, env.witnesses = pureWs ws →
      (swaPayloads env.decode ws = [] →
        fetch_sighash_with_action env =
          some (.error .WrongSighashWithAction)) ∧
      (∀ p, swaPayloads env.decode ws = [p] →
        fetch_sighash_with_action env = some (.ok p))) ∧
    (∀ pre post, 2 ≤ (swaPayloads env.decode pre).length →
      env.witnesses = pureWs pre ++ post →
      fetch_sighash_with_action env =
        some (.error .WrongSighashWithAction)) := by
  constructor
  · intro ws hw
    constructor
    · intro h0
      rw [fetch_sighash_with_action, hw]
      exact ((fswaLoop_none_payloads env.decode ws).1 h0).1
    · intro p hp
      rw [fetch_sighash_with_action, hw]
      exact (fswaLoop_none_payloads env.decode ws).2 p hp
  · intro pre post h2 hw
    rw [fetch_sighash_with_action, hw]
    exact fswaLoop_early env.decode pre post none (by simpa using h2)

/-- C1 witness: on envA the single SighashWithAction payload is returned. -/
theorem C1_unique_action_witness :
    fetch_sighash_with_action envA =
      some (.ok (⟨[7], [3, 3]⟩ : SighashWithActionData)) :=
  ((C1_unique_action envA).1 [[2, 1, 7, 3, 3]] rfl).2 ⟨[7], [3, 3]⟩ rfl

/-- C2: with input count n, generate_skeleton_hash hashes the transaction
hash followed by each witness at global index at least n as an 8-byte
little-endian length prefix plus its raw bytes; an IndexOutOfBound answer
of the host ends the loop normally, any other host error is returned as an
error, and with zero surplus witnesses the skeleton is the hash of the
transaction hash alone. -/
theorem C2_skeleton_hash (env : Env) (n : Nat)
    (hn : calculate_inputs_len env = some (.ok n)) :
    (∀ surplus, env.witnesses.drop n = pureWs surplus →
      generate_skeleton_hash env =
        some (.ok (env.hashF (env.txHash ++ surplusStream surplus)))) ∧
    (∀ pre e rest, env.witnesses.drop n = pureWs pre ++ .error e :: rest →
      (e = .IndexOutOfBound →
        generate_skeleton_hash env =
          some (.ok (env.hashF (env.txHash ++ surplusStream pre)))) ∧
      (e ≠ .IndexOutOfBound →
        generate_skeleton_hash env = some (.error (.Sys e)))) ∧
    (env.witnesses.length ≤ n →
      generate_skeleton_hash env = some (.ok (env.hashF env.txHash))) := by
  have hmain : ∀ surplus, env.witnesses.drop n = pureWs surplus →
      generate_skeleton_hash env =
        some (.ok (env.hashF (env.txHash ++ surplusStream surplus))) := by
    intro surplus hs
    rw [gsh_step env n hn, hs, skeletonLoop_pure]
    simp [Blake2b.finalize, Blake2b.update, new_blake2b]
  refine ⟨hmain, ?_, ?_⟩
  · intro pre e rest hsplit
    constructor
    · intro he
      subst he
      rw [gsh_step env n hn, hsplit, skeletonLoop_err]
      simp [Blake2b.finalize, Blake2b.update, new_blake2b]
    · intro hne
      rw [gsh_step env n hn, hsplit, skeletonLoop_err]
      simp [hne]
  · intro hlen
    have := hmain [] (by simpa [pureWs] using List.drop_eq_nil_of_le hlen)
    simpa [surplusStream] using this

/-- C2 witness: envB has input count 1 and the single surplus witness [6],
so the skeleton is the hash of the transaction hash followed by the
length-prefixed surplus witness. -/
theorem C2_skeleton_hash_witness :
    generate_skeleton_hash envB =
      some (.ok (envB.hashF (envB.txHash ++ surplusStream [[6]]))) :=
  (C2_skeleton_hash envB 1 rfl).1 [[6]] rfl

/-- C3: generate_final_hash hashes the 32-byte skeleton digest with no
length prefix, then the message behind its 8-byte little-endian length
prefix. -/
theorem C3_final_hash (hashF : Bytes → Bytes) (s m : Bytes)
    (_hs : s.length = 32) :
    generate_final_hash hashF s m = hashF (s ++ (u64le m.length ++ m)) := by
  simp [generate_final_hash, Blake2b.finalize, Blake2b.update, new_blake2b,
    List.append_assoc]

/-- C3 witness: concrete evaluation at a 32-byte skeleton. -/
theorem C3_final_hash_witness :
    (List.replicate 32 0 : Bytes).length = 32 ∧
    generate_final_hash (fun bs => bs) (List.replicate 32 0) [1, 2] =
      (fun bs => bs)
        (List.replicate 32 0 ++ (u64le ([1, 2] : Bytes).length ++ [1, 2])) :=
  ⟨by simp, C3_final_hash (fun bs => bs) (List.replicate 32 0) [1, 2]
    (by simp)⟩

/-- C4: when parse_typed_message succeeds, a SighashWithAction primary
witness contributes both its lock and its message to the result, while a
Sighash primary witness contributes its own lock but the digest is built
from the message of the unique transaction-wide SighashWithAction. -/
theorem C4_message_source (env : Env) (w0 : Bytes)
    (h0 : env.groupWitnesses[0]? = some (.ok w0)) :
    (∀ l m d lk, env.decode w0 = some (.SighashWithAction l m) →
      parse_typed_message env = some (.ok (d, lk)) →
      lk = l ∧ ∃ sk, generate_skeleton_hash env = some (.ok sk) ∧
        d = generate_final_hash env.hashF sk m) ∧
    (∀ l d lk, env.decode w0 = some (.Sighash l) →
      parse_typed_message env = some (.ok (d, lk)) →
      lk = l ∧ ∃ swa sk, fetch_sighash_with_action env = some (.ok swa) ∧
        generate_skeleton_hash env = some (.ok sk) ∧
        d = generate_final_hash env.hashF sk swa.message) := by
  have hload : load_witness env.groupWitnesses 0 = .ok w0 := by
    simp [load_witness, h0]
  constructor
  · intro l m d lk hdec hp
    obtain ⟨swa, u, sk, lockb, msg, hswa, hu, hdisp, hsk, hd, hlk⟩ :=
      parse_inversion env d lk hp
    have hfs : fetch_sighash env = .ok (.SighashWithAction l m) := by
      simp [fetch_sighash, hload, hdec]
    rw [hfs] at hu
    obtain rfl : ExtendedWitnessUnion.SighashWithAction l m = u :=
      Except.ok.inj hu
    simp only [dispatch_lock_message, Except.ok.injEq, Prod.mk.injEq]
      at hdisp
    exact ⟨hlk.trans hdisp.1.symm, sk, hsk, hd.trans (by rw [hdisp.2])⟩
  · intro l d lk hdec hp
    obtain ⟨swa, u, sk, lockb, msg, hswa, hu, hdisp, hsk, hd, hlk⟩ :=
      parse_inversion env d lk hp
    have hfs : fetch_sighash env = .ok (.Sighash l) := by
      simp [fetch_sighash, hload, hdec]
    rw [hfs] at hu
    obtain rfl : ExtendedWitnessUnion.Sighash l = u := Except.ok.inj hu
    simp only [dispatch_lock_message, Except.ok.injEq, Prod.mk.injEq]
      at hdisp
    exact ⟨hlk.trans hdisp.1.symm, swa, sk, hswa, hsk,
      hd.trans (by rw [hdisp.2])⟩

/-- C4 witness: on envC (scenario B) the primary witness is a Sighash with
lock [9] and the digest is built from the message [3, 3] of the unique
SighashWithAction found elsewhere. -/
theorem C4_message_source_witness :
    ([9] : Bytes) = [9] ∧
    ∃ swa sk, fetch_sighash_with_action envC = some (.ok swa) ∧
      generate_skeleton_hash envC = some (.ok sk) ∧
      dC = generate_final_hash envC.hashF sk swa.message :=
  (C4_message_source envC [1, 9] rfl).2 [9] dC [9] rfl rfl

/-- C5: a non-empty witness at an index at least 1 of the authorization
group makes parse_typed_message fail with WrongWitnessLayout (the
UnexpectedTrailerData case of the spec) whatever every other component of
the environment holds, in particular for every hash function and every
envelope-read outcome: the trailer check is the first step of the
pipeline, before any hashing. -/
theorem C5_trailer (env : Env) (gws : List Bytes) (w : Bytes)
    (hg : env.groupWitnesses = pureWs gws)
    (hmem : w ∈ gws.drop 1) (hne : w.length ≠ 0) :
    parse_typed_message env = some (.error .WrongWitnessLayout) := by
  have hchk : check_others_in_group env =
      some (.error .WrongWitnessLayout) := by
    cases gws with
    | nil => cases hmem
    | cons g rest =>
      simp only [List.drop_succ_cons, List.drop_zero] at hmem
      simp only [check_others_in_group, hg, pureWs_cons]
      exact cogLoop_mem_err rest w hmem hne
  simp [parse_typed_message, hchk]

/-- C5 witness: envD carries the non-empty trailer witness [5] at group
index 1. -/
theorem C5_trailer_witness :
    parse_typed_message envD = some (.error .WrongWitnessLayout) :=
  C5_trailer envD [[], [5]] [5] rfl (by decide) (by decide)

/-- C6: when the host read of group witness 0 succeeds, fetch_sighash
succeeds exactly on a decode to the Sighash or SighashWithAction variant,
answers MoleculeEncoding (the MalformedWitness case of the spec) on a
decode failure or any other variant, and MoleculeEncoding is distinct from
every host error Sys(e). -/
theorem C6_primary_fetch (env : Env) (w : Bytes)
    (h0 : load_witness env.groupWitnesses 0 = .ok w) :
    (∀ u, fetch_sighash env = .ok u ↔
      env.decode w = some u ∧ isPrimaryVariant u = true) ∧
    ((env.decode w = none ∨
      ∃ u, env.decode w = some u ∧ isPrimaryVariant u = false) →
      fetch_sighash env = .error .MoleculeEncoding) ∧
    (∀ e : SysError, (Error.MoleculeEncoding : Error) ≠ .Sys e) := by
  refine ⟨?_, ?_, fun e h => by cases h⟩
  · intro u
    rcases hdec : env.decode w with _ | v
    · simp [fetch_sighash, h0, hdec]
    · cases v with
      | Sighash l =>
        simp only [fetch_sighash, h0, hdec, Except.ok.injEq,
          Option.some.injEq]
        constructor
        · rintro rfl; exact ⟨rfl, rfl⟩
        · rintro ⟨rfl, _⟩; rfl
      | SighashWithAction l m =>
        simp only [fetch_sighash, h0, hdec, Except.ok.injEq,
          Option.some.injEq]
        constructor
        · rintro rfl; exact ⟨rfl, rfl⟩
        · rintro ⟨rfl, _⟩; rfl
      | OtherVariant t dat =>
        simp only [fetch_sighash, h0, hdec, Option.some.injEq]
        constructor
        · intro hcontra; exact Except.noConfusion hcontra
        · rintro ⟨rfl, hcontra⟩
          simp [isPrimaryVariant] at hcontra
  · rintro (hdec | ⟨u, hdec, hprim⟩)
    · simp [fetch_sighash, h0, hdec]
    · cases u with
      | Sighash l => simp [isPrimaryVariant] at hprim
      | SighashWithAction l m => simp [isPrimaryVariant] at hprim
      | OtherVariant t dat => simp [fetch_sighash, h0, hdec]

/-- C6 witness: on envA the primary witness decodes as SighashWithAction
and is returned. -/
theorem C6_primary_fetch_witness :
    fetch_sighash envA = .ok (.SighashWithAction [7] [3, 3]) :=
  ((C6_primary_fetch envA [2, 1, 7, 3, 3] rfl).1
    (.SighashWithAction [7] [3, 3])).mpr ⟨rfl, rfl⟩

/-- C7: on the expected LengthNotEnough outcome of the deliberately short
read of envelope bytes [28, 36), the reader interprets the window as two
4-byte little-endian offsets and, for a well-formed window, answers
(outputs_offset - inputs_offset - NUMBER_SIZE) / CellInput::TOTAL_SIZE. -/
theorem C7_inputs_len (env : Env) (k : Nat)
    (hr : env.txReadResult = .error (.LengthNotEnough k))
    (hle : readU32 env.txWindow 0 + NUMBER_SIZE ≤ readU32 env.txWindow 4) :
    calculate_inputs_len env = some (.ok
      ((readU32 env.txWindow 4 - readU32 env.txWindow 0 - NUMBER_SIZE) /
        CELL_INPUT_TOTAL_SIZE)) :=
  calculate_inputs_len_formula env k hr hle

/-- C7 witness: on envA the window encodes inputs-offset 0 and
outputs-offset 48, giving (48 - 0 - 4) / 44 = 1 input. -/
theorem C7_inputs_len_witness :
    calculate_inputs_len envA = some (.ok
      ((readU32 envA.txWindow 4 - readU32 envA.txWindow 0 - NUMBER_SIZE) /
        CELL_INPUT_TOTAL_SIZE)) :=
  C7_inputs_len envA 100 rfl (by decide)

/-- C8 counterexample: on an IndexOutOfBound outcome of the envelope read,
calculate_inputs_len hits the unreachable! arm and panics (modelled none):
the error is not propagated to the caller, refuting the claim that every
host error other than the buffer-too-small signal is propagated as an
error. -/
theorem C8_counterexample :
    envE.txReadResult = .error .IndexOutOfBound ∧
    calculate_inputs_len envE = none ∧
    calculate_inputs_len envE ≠ some (.error .IndexOutOfBound) := by
  refine ⟨rfl, rfl, ?_⟩
  intro h
  simp [calculate_inputs_len, envE, envA] at h

/-- C8 amended: the LengthNotEnough outcome of the short read is the
success path; an Unknown host error is propagated to the caller as an
error; every other outcome of the read (success, IndexOutOfBound,
ItemMissing, Encoding) hits the unreachable! arm and aborts by panic
instead of returning an error. -/
theorem C8_short_read (env : Env) :
    (∀ k, env.txReadResult = .error (.LengthNotEnough k) →
      ∃ n, calculate_inputs_len env = some (.ok n)) ∧
    (∀ c, env.txReadResult = .error (.Unknown c) →
      calculate_inputs_len env = some (.error (.Unknown c))) ∧
    (∀ n, env.txReadResult = .ok n → calculate_inputs_len env = none) ∧
    (env.txReadResult = .error .IndexOutOfBound →
      calculate_inputs_len env = none) ∧
    (env.txReadResult = .error .ItemMissing →
      calculate_inputs_len env = none) ∧
    (env.txReadResult = .error .Encoding →
      calculate_inputs_len env = none) := by
  refine ⟨?_, fun c hc => by simp [calculate_inputs_len, hc],
    fun n hn => by simp [calculate_inputs_len, hn],
    fun h => by simp [calculate_inputs_len, h],
    fun h => by simp [calculate_inputs_len, h],
    fun h => by simp [calculate_inputs_len, h]⟩
  intro k hk
  refine ⟨usizeSub (usizeSub (readU32 env.txWindow 4)
    (readU32 env.txWindow 0)) NUMBER_SIZE / CELL_INPUT_TOTAL_SIZE, ?_⟩
  simp [calculate_inputs_len, hk]

/-- C8 witness: on envA the buffer-too-small outcome is handled as
success. -/
theorem C8_short_read_witness :
    ∃ n, calculate_inputs_len envA = some (.ok n) :=
  (C8_short_read envA).1 100 rfl

/-- C9: the subtraction of calculate_inputs_len is unguarded usize
arithmetic: under the precondition outputs_offset at least
inputs_offset + NUMBER_SIZE it does not underflow and yields the stated
formula, and even without the precondition the function still answers Ok,
rejecting nothing. -/
theorem C9_no_underflow_guard (env : Env) (k : Nat)
    (hr : env.txReadResult = .error (.LengthNotEnough k)) :
    (readU32 env.txWindow 0 + NUMBER_SIZE ≤ readU32 env.txWindow 4 →
      calculate_inputs_len env = some (.ok
        ((readU32 env.txWindow 4 - readU32 env.txWindow 0 - NUMBER_SIZE) /
          CELL_INPUT_TOTAL_SIZE))) ∧
    (∃ n, calculate_inputs_len env = some (.ok n)) :=
  ⟨fun hle => calculate_inputs_len_formula env k hr hle,
    ⟨usizeSub (usizeSub (readU32 env.txWindow 4) (readU32 env.txWindow 0))
      NUMBER_SIZE / CELL_INPUT_TOTAL_SIZE,
      by simp [calculate_inputs_len, hr]⟩⟩

/-- C9 witness: envF violates the precondition (outputs-offset 0 below
inputs-offset 100 + 4) and calculate_inputs_len still answers Ok. -/
theorem C9_no_underflow_guard_witness :
    readU32 envF.txWindow 4 < readU32 envF.txWindow 0 + NUMBER_SIZE ∧
    ∃ n, calculate_inputs_len envF = some (.ok n) :=
  ⟨by decide, (C9_no_underflow_guard envF 100 rfl).2⟩

/-- C10: every witness fetch_sighash returns is a Sighash or a
SighashWithAction, so the fallback arm of the variant dispatch of
parse_typed_message never fires. -/
theorem C10_fallback_unreachable (env : Env) (w : ExtendedWitnessUnion)
    (h : fetch_sighash env = .ok w) :
    ((∃ l, w = .Sighash l) ∨ (∃ l m, w = .SighashWithAction l m)) ∧
    ∀ swa, dispatch_lock_message swa w ≠
      .error .WrongSighashWithAction := by
  rcases hl : load_witness env.groupWitnesses 0 with e | wb
  · have hfs : fetch_sighash env = .error (.Sys e) := by
      simp [fetch_sighash, hl]
    rw [hfs] at h
    exact Except.noConfusion h
  rcases hdec : env.decode wb with _ | u
  · have hfs : fetch_sighash env = .error .MoleculeEncoding := by
      simp [fetch_sighash, hl, hdec]
    rw [hfs] at h
    exact Except.noConfusion h
  cases u with
  | Sighash l =>
    have hfs : fetch_sighash env = .ok (.Sighash l) := by
      simp [fetch_sighash, hl, hdec]
    rw [hfs] at h
    obtain rfl : ExtendedWitnessUnion.Sighash l = w := Except.ok.inj h
    exact ⟨Or.inl ⟨l, rfl⟩, fun swa hc => by
      simp [dispatch_lock_message] at hc⟩
  | SighashWithAction l m =>
    have hfs : fetch_sighash env = .ok (.SighashWithAction l m) := by
      simp [fetch_sighash, hl, hdec]
    rw [hfs] at h
    obtain rfl : ExtendedWitnessUnion.SighashWithAction l m = w :=
      Except.ok.inj h
    exact ⟨Or.inr ⟨l, m, rfl⟩, fun swa hc => by
      simp [dispatch_lock_message] at hc⟩
  | OtherVariant t dat =>
    have hfs : fetch_sighash env = .error .MoleculeEncoding := by
      simp [fetch_sighash, hl, hdec]
    rw [hfs] at h
    exact Except.noConfusion h

/-- C10 witness: on envC the fetched primary witness is the Sighash with
lock [9] and the dispatch succeeds on it. -/
theorem C10_fallback_unreachable_witness :
    ((∃ l, ExtendedWitnessUnion.Sighash [9] = .Sighash l) ∨
      (∃ l m, ExtendedWitnessUnion.Sighash [9] = .SighashWithAction l m)) ∧
    ∀ swa, dispatch_lock_message swa (.Sighash [9]) ≠
      .error .WrongSighashWithAction :=
  C10_fallback_unreachable envC (.Sighash [9]) rfl

end CkbTypedMessage
